import Mathlib

/-!
# EC JWK key material: import, export, public projection and thumbprint

A shallow embedding of `vendor/github.com/lestrrat-go/jwx/jwk/ecdsa.go`.

* Byte slices are lists of `Byte`; a nil slice is `none`.
* `*big.Int` values are `Int`.
* A Go `error` is an `Option GoError` (`none` is `nil`); a function that
  returns `(value, error)` is an `Except GoError value`.
* A Go run-time panic (a contract violation inside a callee) is the outer
  `Option` being `none`.
* The reader/writer lock is not modelled: every operation runs alone.
-/

namespace Jwk

/-- One octet. -/
abbrev Byte := Fin 256

/-- Native curve objects (`elliptic.Curve`), compared by identity: the
singletons returned by `elliptic.P224()`, `elliptic.P256()`, `elliptic.P384()`,
`elliptic.P521()` and `secp256k1.S256()`, and any other curve object, which is
equal to none of the singletons even when its parameters coincide. -/
inductive NativeCurve where
  | P224
  | P256
  | P384
  | P521
  | S256
  | custom (name : String) (bitSize : Nat)
  deriving DecidableEq, Repr

/-- Error values as built by `errors.Errorf`, `errors.Wrap` and `errors.Wrapf`:
the format string and the argument are kept apart. A string argument is kept
as its text; a curve object, which `%s` prints as a dump of the object, is kept
as the object (`errorfCurve`). -/
inductive GoError where
  | errorf (format : String) (arg : String)
  | errorfCurve (format : String) (arg : NativeCurve)
  | wrap (cause : GoError) (message : String)
  | wrapf (cause : GoError) (format : String) (arg : String)
  deriving DecidableEq, Repr

/-- The `Params().BitSize` of a native curve. -/
def NativeCurve.BitSize : NativeCurve → Nat
  | .P224 => 224
  | .P256 => 256
  | .P384 => 384
  | .P521 => 521
  | .S256 => 256
  | .custom _ bits => bits

/-- The `Params().Name` of a native curve. -/
def NativeCurve.Name : NativeCurve → String
  | .P224 => "P-224"
  | .P256 => "P-256"
  | .P384 => "P-384"
  | .P521 => "P-521"
  | .S256 => "secp256k1"
  | .custom name _ => name

/-- The type `jwa.EllipticCurveAlgorithm`, a string type. -/
structure EllipticCurveAlgorithm where
  val : String
  deriving DecidableEq, Repr

/-- Modelled from the spec: the constant `jwa.P256` (package `jwa` is not under
`src/`), the `crv` value `"P-256"`. -/
def P256 : EllipticCurveAlgorithm := ⟨"P-256"⟩

/-- Modelled from the spec: the constant `jwa.P384`, the `crv` value `"P-384"`. -/
def P384 : EllipticCurveAlgorithm := ⟨"P-384"⟩

/-- Modelled from the spec: the constant `jwa.P521`, the `crv` value `"P-521"`. -/
def P521 : EllipticCurveAlgorithm := ⟨"P-521"⟩

/-- Modelled from the spec: the constant `jwa.Secp256k1`, the `crv` value
`"secp256k1"`. -/
def Secp256k1 : EllipticCurveAlgorithm := ⟨"secp256k1"⟩

/-- Modelled from the spec: the constant `jwa.InvalidEllipticCurve`, an
identifier that matches no known curve. -/
def InvalidEllipticCurve : EllipticCurveAlgorithm := ⟨"P-invalid"⟩

/-- The native public key `ecdsa.PublicKey`. -/
structure NativePublicKey where
  Curve : NativeCurve
  X : Int
  Y : Int
  deriving DecidableEq, Repr

/-- The native private key `ecdsa.PrivateKey`: an embedded public key and the
scalar `D`. -/
structure NativePrivateKey where
  PublicKey : NativePublicKey
  D : Int
  deriving DecidableEq, Repr

/-- The method `(*big.Int).SetBytes`: the big-endian unsigned value of a byte
slice. -/
def SetBytes (buf : List Byte) : Int :=
  buf.foldl (fun acc b => acc * 256 + (b.val : Int)) 0

/-- The method `(*big.Int).FillBytes` on a buffer of `w` bytes: the `w`-byte
big-endian form of `v`, zero-extended on the left. -/
def FillBytes : Nat → Nat → List Byte
  | 0, _ => []
  | w + 1, v => FillBytes w (v / 256) ++ [⟨v % 256, Nat.mod_lt _ (by decide)⟩]

/-- Modelled from the spec: `widthOf` of the curve registry (32, 48, 66 and 32
bytes for the registered curves), extended to any native curve as the number of
bytes that hold its field size. -/
def widthOf (crv : NativeCurve) : Nat :=
  (crv.BitSize + 7) / 8

/-- Modelled from the spec: `ecutil.AllocECPointBuffer` (package
`internal/ecutil` is not under `src/`), the encoder of the point codec. It
produces exactly `widthOf crv` bytes, big-endian, left-zero-padded. A value
that is negative or does not fit in that width is a contract violation
(`none`). -/
def AllocECPointBuffer (v : Int) (crv : NativeCurve) : Option (List Byte) :=
  if 0 ≤ v ∧ v.toNat < 256 ^ widthOf crv then
    some (FillBytes (widthOf crv) v.toNat)
  else
    none

/-- The key object `ecdsaPublicKey`, as far as `ecdsa.go` reads and writes it:
the curve pointer `crv` and the byte slices `x` and `y`. -/
structure ecdsaPublicKey where
  crv : Option EllipticCurveAlgorithm
  x : Option (List Byte)
  y : Option (List Byte)
  deriving DecidableEq, Repr

/-- The key object `ecdsaPrivateKey`: `crv`, `x`, `y` and the scalar `d`. -/
structure ecdsaPrivateKey where
  crv : Option EllipticCurveAlgorithm
  x : Option (List Byte)
  y : Option (List Byte)
  d : Option (List Byte)
  deriving DecidableEq, Repr

/-- The method `(*ecdsaPublicKey).FromRaw`. The coordinate buffers are
allocated and stored first; the curve is resolved afterwards. The result is the
object after the call and the returned error. -/
def ecdsaPublicKey.FromRaw (k : ecdsaPublicKey) (rawKey : NativePublicKey) :
    Option (ecdsaPublicKey × Option GoError) :=
  match AllocECPointBuffer rawKey.X rawKey.Curve with
  | none => none
  | some xbuf =>
    match AllocECPointBuffer rawKey.Y rawKey.Curve with
    | none => none
    | some ybuf =>
      let k1 : ecdsaPublicKey := { k with x := some xbuf, y := some ybuf }
      match rawKey.Curve with
      | .P256 => some ({ k1 with crv := some P256 }, none)
      | .P384 => some ({ k1 with crv := some P384 }, none)
      | .P521 => some ({ k1 with crv := some P521 }, none)
      | .S256 => some ({ k1 with crv := some Secp256k1 }, none)
      | c => some (k1, some (.errorfCurve "invalid elliptic curve %s" c))

/-- The method `(*ecdsaPrivateKey).FromRaw`. -/
def ecdsaPrivateKey.FromRaw (k : ecdsaPrivateKey) (rawKey : NativePrivateKey) :
    Option (ecdsaPrivateKey × Option GoError) :=
  match AllocECPointBuffer rawKey.PublicKey.X rawKey.PublicKey.Curve with
  | none => none
  | some xbuf =>
    match AllocECPointBuffer rawKey.PublicKey.Y rawKey.PublicKey.Curve with
    | none => none
    | some ybuf =>
      match AllocECPointBuffer rawKey.D rawKey.PublicKey.Curve with
      | none => none
      | some dbuf =>
        let k1 : ecdsaPrivateKey :=
          { k with x := some xbuf, y := some ybuf, d := some dbuf }
        match rawKey.PublicKey.Curve with
        | .P256 => some ({ k1 with crv := some P256 }, none)
        | .P384 => some ({ k1 with crv := some P384 }, none)
        | .P521 => some ({ k1 with crv := some P521 }, none)
        | .S256 => some ({ k1 with crv := some Secp256k1 }, none)
        | c => some (k1, some (.errorfCurve "invalid elliptic curve %s" c))

/-- The function `buildECDSAPublicKey`. -/
def buildECDSAPublicKey (alg : EllipticCurveAlgorithm) (xbuf ybuf : List Byte) :
    Except GoError NativePublicKey :=
  if alg = P256 then
    .ok { Curve := .P256, X := SetBytes xbuf, Y := SetBytes ybuf }
  else if alg = P384 then
    .ok { Curve := .P384, X := SetBytes xbuf, Y := SetBytes ybuf }
  else if alg = P521 then
    .ok { Curve := .P521, X := SetBytes xbuf, Y := SetBytes ybuf }
  else if alg = Secp256k1 then
    .ok { Curve := .S256, X := SetBytes xbuf, Y := SetBytes ybuf }
  else
    .error (.errorf "invalid curve algorithm %s" alg.val)

/-- Modelled from the spec: the accessor `Crv()` (`ecdsa_gen.go` is not under
`src/`): the stored curve identifier, and an identifier of no known curve when
none is stored. -/
def ecdsaPublicKey.Crv (k : ecdsaPublicKey) : EllipticCurveAlgorithm :=
  match k.crv with
  | some c => c
  | none => InvalidEllipticCurve

/-- Modelled from the spec: the accessor `Crv()` of the private key object. -/
def ecdsaPrivateKey.Crv (k : ecdsaPrivateKey) : EllipticCurveAlgorithm :=
  match k.crv with
  | some c => c
  | none => InvalidEllipticCurve

/-- A native key value handed to a destination: `*ecdsa.PublicKey` or
`*ecdsa.PrivateKey`. -/
inductive NativeKey where
  | pub (key : NativePublicKey)
  | priv (key : NativePrivateKey)
  deriving DecidableEq, Repr

/-- The destination argument `v` of `Raw`: a pointer to an `ecdsa.PublicKey`
or to an `ecdsa.PrivateKey` variable, with the variable's content (`none` is
the zero value of a variable that was never assigned). -/
inductive Dest where
  | publicKey (content : Option NativePublicKey)
  | privateKey (content : Option NativePrivateKey)
  deriving DecidableEq, Repr

/-- Modelled from the spec: `blackmagic.AssignIfCompatible` (package
`internal/blackmagic` is not under `src/`). The value is assigned into the
destination when the destination's expected type can hold it; otherwise the
call fails and the destination is not written. The result is the destination
after the call and the returned error. -/
def AssignIfCompatible (dst : Dest) (src : NativeKey) : Dest × Option GoError :=
  match dst, src with
  | .publicKey _, .pub key => (.publicKey (some key), none)
  | .privateKey _, .priv key => (.privateKey (some key), none)
  | .publicKey content, .priv _ =>
    (.publicKey content,
      some (.errorf "argument to AssignIfCompatible() must be compatible with %T"
        "*ecdsa.PrivateKey"))
  | .privateKey content, .pub _ =>
    (.privateKey content,
      some (.errorf "argument to AssignIfCompatible() must be compatible with %T"
        "*ecdsa.PublicKey"))

/-- The method `(*ecdsaPublicKey).Raw`. -/
def ecdsaPublicKey.Raw (k : ecdsaPublicKey) (v : Dest) : Dest × Option GoError :=
  match buildECDSAPublicKey k.Crv (k.x.getD []) (k.y.getD []) with
  | .error err => (v, some (.wrap err "failed to build public key"))
  | .ok pubk => AssignIfCompatible v (.pub pubk)

/-- The method `(*ecdsaPrivateKey).Raw`. -/
def ecdsaPrivateKey.Raw (k : ecdsaPrivateKey) (v : Dest) : Dest × Option GoError :=
  match buildECDSAPublicKey k.Crv (k.x.getD []) (k.y.getD []) with
  | .error err => (v, some (.wrap err "failed to build public key"))
  | .ok pubk =>
    let d : Int := SetBytes (k.d.getD [])
    let key : NativePrivateKey := { PublicKey := pubk, D := d }
    AssignIfCompatible v (.priv key)

/-- The 64 characters of the URL-safe base64 alphabet. -/
def base64Alphabet : List Char :=
  "ABCDEFGHIJKLMNOPQRSTUVWXYZabcdefghijklmnopqrstuvwxyz0123456789-_".toList

/-- The character of a 6-bit value. -/
def base64Char (n : Nat) : Char :=
  base64Alphabet.getD n 'A'

/-- The characters of an unpadded base64 encoding, three bytes at a time. -/
def base64Chars : List Byte → List Char
  | [] => []
  | [a] => [base64Char (a.val / 4), base64Char (a.val % 4 * 16)]
  | [a, b] =>
    [base64Char (a.val / 4), base64Char (a.val % 4 * 16 + b.val / 16),
      base64Char (b.val % 16 * 4)]
  | a :: b :: c :: rest =>
    base64Char (a.val / 4) :: base64Char (a.val % 4 * 16 + b.val / 16) ::
      base64Char (b.val % 16 * 4 + c.val / 64) :: base64Char (c.val % 64) ::
      base64Chars rest

/-- Modelled from the spec: `base64.EncodeToString` (package `internal/base64`
is not under `src/`): base64url without padding. -/
def EncodeToString (src : List Byte) : String :=
  String.mk (base64Chars src)

/-- A hash algorithm (`crypto.Hash`) that is available in the program, given
by its digest as a function of all the data written to the hash object;
`fmt.Fprint` of a string writes the bytes of that string. -/
abbrev Hash := String → List Byte

/-- The function `ecdsaThumbprint`: the seven writes into a new hash object,
then its sum. -/
def ecdsaThumbprint (hash : Hash) (crv x y : String) : List Byte :=
  let h := ""
  let h := h ++ "\x7b\"crv\":\""
  let h := h ++ crv
  let h := h ++ "\",\"kty\":\"EC\",\"x\":\""
  let h := h ++ x
  let h := h ++ "\",\"y\":\""
  let h := h ++ y
  let h := h ++ "\"\x7d"
  hash h

/-- The method `ecdsaPublicKey.Thumbprint`. The key is materialised into a
zero-valued `ecdsa.PublicKey` variable by `Raw`, then its coordinates are
encoded again. A variable still at its zero value has a nil curve, on which
`Params()` panics. -/
def ecdsaPublicKey.Thumbprint (k : ecdsaPublicKey) (hash : Hash) :
    Option (Except GoError (List Byte)) :=
  match k.Raw (.publicKey none) with
  | (_, some err) =>
    some (.error (.wrap err
      "failed to materialize ecdsa.PublicKey for thumbprint generation"))
  | (.publicKey (some key), none) =>
    match AllocECPointBuffer key.X key.Curve with
    | none => none
    | some xbuf =>
      match AllocECPointBuffer key.Y key.Curve with
      | none => none
      | some ybuf =>
        some (.ok (ecdsaThumbprint hash key.Curve.Name
          (EncodeToString xbuf) (EncodeToString ybuf)))
  | (_, none) => none

/-- The method `ecdsaPrivateKey.Thumbprint`. The key is materialised into a
zero-valued `ecdsa.PrivateKey` variable by `Raw`; only the promoted fields `X`,
`Y` and `Curve` of its public part are read. -/
def ecdsaPrivateKey.Thumbprint (k : ecdsaPrivateKey) (hash : Hash) :
    Option (Except GoError (List Byte)) :=
  match k.Raw (.privateKey none) with
  | (_, some err) =>
    some (.error (.wrap err
      "failed to materialize ecdsa.PrivateKey for thumbprint generation"))
  | (.privateKey (some key), none) =>
    match AllocECPointBuffer key.PublicKey.X key.PublicKey.Curve with
    | none => none
    | some xbuf =>
      match AllocECPointBuffer key.PublicKey.Y key.PublicKey.Curve with
      | none => none
      | some ybuf =>
        some (.ok (ecdsaThumbprint hash key.PublicKey.Curve.Name
          (EncodeToString xbuf) (EncodeToString ybuf)))
  | (_, none) => none

/-- A pair produced by a header iterator: the field name and its value. -/
structure HeaderPair (V : Type) where
  Key : String
  Value : V
  deriving DecidableEq, Repr

/-- The constant `ECDSADKey`, the name of the private-scalar field. -/
def ECDSADKey : String := "d"

/-- The loop of `makeECDSAPublicKey` over the pairs that are left, with the
key object built so far. -/
def copyPairs {K V : Type} (Set : K → String → V → Except GoError K) :
    K → List (HeaderPair V) → Except GoError K
  | newKey, [] => .ok newKey
  | newKey, pair :: rest =>
    if pair.Key = ECDSADKey then
      copyPairs Set newKey rest
    else
      match Set newKey pair.Key pair.Value with
      | .error err => .error (.wrapf err "failed to set field %s" pair.Key)
      | .ok newKey1 => copyPairs Set newKey1 rest

/-- The function `makeECDSAPublicKey`. The constructor `NewECDSAPublicKey` and
the method `Set` of the new key (`ecdsa_gen.go` is not under `src/`) are
parameters; `pairs` is what the source's iterator yields, in order. -/
def makeECDSAPublicKey {K V : Type} (NewECDSAPublicKey : K)
    (Set : K → String → V → Except GoError K) (pairs : List (HeaderPair V)) :
    Except GoError K :=
  copyPairs Set NewECDSAPublicKey pairs

/-- The values a field of an EC key can carry: the key type, a curve
identifier, a byte string, or any other value. -/
inductive FieldValue where
  | keyType (kty : String)
  | curve (crv : EllipticCurveAlgorithm)
  | bytes (buf : List Byte)
  | other (text : String)
  deriving DecidableEq, Repr

/-- Modelled from the spec: the constructor `NewECDSAPublicKey`
(`ecdsa_gen.go` is not under `src/`): a new public-only key object with no
field stored. -/
def NewECDSAPublicKey : ecdsaPublicKey :=
  { crv := none, x := none, y := none }

/-- Modelled from the spec: the method `Set` of the public key object
(`ecdsa_gen.go` is not under `src/`). A field copy stores the value under its
name; it fails on a type mismatch and on an unknown field. The key type of an
EC key is the literal `"EC"`. -/
def ecdsaPublicKey.Set (k : ecdsaPublicKey) (name : String) (value : FieldValue) :
    Except GoError ecdsaPublicKey :=
  if name = "kty" then
    if value = .keyType "EC" then .ok k
    else .error (.errorf "invalid value for %s key" name)
  else if name = "crv" then
    match value with
    | .curve c => .ok { k with crv := some c }
    | _ => .error (.errorf "invalid value for %s key" name)
  else if name = "x" then
    match value with
    | .bytes b => .ok { k with x := some b }
    | _ => .error (.errorf "invalid value for %s key" name)
  else if name = "y" then
    match value with
    | .bytes b => .ok { k with y := some b }
    | _ => .error (.errorf "invalid value for %s key" name)
  else
    .error (.errorf "unknown field %s" name)

/-- The pair of a stored field, if the field is stored. -/
def fieldPair (name : String) : Option FieldValue → List (HeaderPair FieldValue)
  | none => []
  | some value => [{ Key := name, Value := value }]

/-- Modelled from the spec: the method `Iterate` of the public key object
(`ecdsa_gen.go` is not under `src/`): the (field-name, value) pairs the key
exposes, in the order `kty`, `crv`, `x`, `y`. -/
def ecdsaPublicKey.Iterate (k : ecdsaPublicKey) : List (HeaderPair FieldValue) :=
  [{ Key := "kty", Value := .keyType "EC" }] ++
    fieldPair "crv" (k.crv.map FieldValue.curve) ++
    fieldPair "x" (k.x.map FieldValue.bytes) ++
    fieldPair "y" (k.y.map FieldValue.bytes)

/-- Modelled from the spec: the method `Iterate` of the private key object:
the pairs of the public part, then the private scalar `d`. -/
def ecdsaPrivateKey.Iterate (k : ecdsaPrivateKey) : List (HeaderPair FieldValue) :=
  [{ Key := "kty", Value := .keyType "EC" }] ++
    fieldPair "crv" (k.crv.map FieldValue.curve) ++
    fieldPair "x" (k.x.map FieldValue.bytes) ++
    fieldPair "y" (k.y.map FieldValue.bytes) ++
    fieldPair ECDSADKey (k.d.map FieldValue.bytes)

/-- The method `(*ecdsaPrivateKey).PublicKey`. -/
def ecdsaPrivateKey.PublicKey (k : ecdsaPrivateKey) : Except GoError ecdsaPublicKey :=
  makeECDSAPublicKey NewECDSAPublicKey ecdsaPublicKey.Set k.Iterate

/-- The method `(*ecdsaPublicKey).PublicKey`. -/
def ecdsaPublicKey.PublicKey (k : ecdsaPublicKey) : Except GoError ecdsaPublicKey :=
  makeECDSAPublicKey NewECDSAPublicKey ecdsaPublicKey.Set k.Iterate

/-- Modelled from the spec: the static table of the curve registry, pairing
each native curve object with its curve identifier. -/
def curveRegistry : List (NativeCurve × EllipticCurveAlgorithm) :=
  [(.P256, P256), (.P384, P384), (.P521, P521), (.S256, Secp256k1)]

/-- The coordinate byte strings of the spec: `buf` has exactly `w` bytes, the
most significant first, and is the value `v` zero-padded on the left; byte `i`
is the digit of `v` at weight `256 ^ (w - 1 - i)`. -/
def IsCoordinateBytes (w : Nat) (v : Int) (buf : List Byte) : Prop :=
  buf.length = w ∧ SetBytes buf = v ∧
    ∀ i (h : i < buf.length), (buf.get ⟨i, h⟩).val = v.toNat / 256 ^ (w - 1 - i) % 256

/-- Modelled from the spec: the method `Get` of the public key object
(`ecdsa_gen.go` is not under `src/`): the value the key holds under a field
name. The key type of an EC key is always `"EC"`; a public key object has no
field for the private scalar. -/
def ecdsaPublicKey.Get (k : ecdsaPublicKey) (name : String) : Option FieldValue :=
  if name = "kty" then some (.keyType "EC")
  else if name = "crv" then k.crv.map FieldValue.curve
  else if name = "x" then k.x.map FieldValue.bytes
  else if name = "y" then k.y.map FieldValue.bytes
  else none

/-! ## The point codec -/

theorem FillBytes_length (w v : Nat) : (FillBytes w v).length = w := by
  induction w generalizing v with
  | zero => simp [FillBytes]
  | succ n ih => simp [FillBytes, ih]

theorem SetBytes_snoc (xs : List Byte) (b : Byte) :
    SetBytes (xs ++ [b]) = SetBytes xs * 256 + (b.val : Int) := by
  simp [SetBytes, List.foldl_append]

theorem SetBytes_FillBytes (w v : Nat) :
    SetBytes (FillBytes w v) = ((v % 256 ^ w : Nat) : Int) := by
  induction w generalizing v with
  | zero => simp [FillBytes, SetBytes, Nat.mod_one]
  | succ n ih =>
    rw [FillBytes, SetBytes_snoc, ih]
    have h : v % 256 ^ (n + 1) = v % 256 + 256 * (v / 256 % 256 ^ n) := by
      rw [pow_succ, mul_comm, Nat.mod_mul]
    rw [h]
    push_cast
    ring

theorem SetBytes_nonneg (xs : List Byte) : 0 ≤ SetBytes xs := by
  induction xs using List.reverseRecOn with
  | nil => simp [SetBytes]
  | append_singleton xs b ih =>
    rw [SetBytes_snoc]
    positivity

theorem SetBytes_lt (xs : List Byte) : SetBytes xs < 256 ^ xs.length := by
  induction xs using List.reverseRecOn with
  | nil => simp [SetBytes]
  | append_singleton xs b ih =>
    rw [SetBytes_snoc, List.length_append, List.length_singleton, pow_succ]
    have hb : (b.val : Int) < 256 := by exact_mod_cast b.isLt
    nlinarith

theorem AllocECPointBuffer_of_fits (v : Int) (crv : NativeCurve)
    (h : 0 ≤ v ∧ v.toNat < 256 ^ widthOf crv) :
    AllocECPointBuffer v crv = some (FillBytes (widthOf crv) v.toNat) := by
  simp [AllocECPointBuffer, h]

theorem SetBytes_FillBytes_of_fits (v : Int) (w : Nat)
    (h : 0 ≤ v ∧ v.toNat < 256 ^ w) :
    SetBytes (FillBytes w v.toNat) = v := by
  rw [SetBytes_FillBytes, Nat.mod_eq_of_lt h.2]
  exact Int.toNat_of_nonneg h.1

theorem fits_SetBytes_FillBytes (v : Int) (w : Nat)
    (h : 0 ≤ v ∧ v.toNat < 256 ^ w) :
    0 ≤ SetBytes (FillBytes w v.toNat) ∧
      (SetBytes (FillBytes w v.toNat)).toNat < 256 ^ w := by
  rw [SetBytes_FillBytes_of_fits v w h]
  exact h

theorem EncodeToString_examples :
    EncodeToString [] = "" ∧ EncodeToString [255] = "_w" ∧
      EncodeToString [1, 2] = "AQI" ∧ EncodeToString [1, 2, 3, 251] = "AQID-w" := by
  decide

theorem mem_curveRegistry (crv : NativeCurve) (alg : EllipticCurveAlgorithm) :
    (crv, alg) ∈ curveRegistry ↔
      (crv = .P256 ∧ alg = P256) ∨ (crv = .P384 ∧ alg = P384) ∨
        (crv = .P521 ∧ alg = P521) ∨ (crv = .S256 ∧ alg = Secp256k1) := by
  simp [curveRegistry]

end Jwk

namespace Jwk

/-- C1 (the code departs from it): importing a P-224 key into a public key
object that holds a P-256 key returns an error, keeps the stored curve
identifier and replaces the stored `x` and `y` by the 28-byte encodings of the
rejected key; the private variant replaces `x`, `y` and `d` in the same way. -/
theorem fromRaw_unsupported_curve_overwrites_coordinates :
    ecdsaPublicKey.FromRaw
        { crv := some P256, x := some (FillBytes 32 1), y := some (FillBytes 32 2) }
        { Curve := .P224, X := 3, Y := 4 } =
      some ({ crv := some P256, x := some (FillBytes 28 3), y := some (FillBytes 28 4) },
        some (.errorfCurve "invalid elliptic curve %s" .P224)) ∧
    ecdsaPrivateKey.FromRaw
        { crv := some P256, x := some (FillBytes 32 1), y := some (FillBytes 32 2),
          d := some (FillBytes 32 7) }
        { PublicKey := { Curve := .P224, X := 3, Y := 4 }, D := 5 } =
      some
        ({ crv := some P256, x := some (FillBytes 28 3), y := some (FillBytes 28 4),
           d := some (FillBytes 28 5) },
          some (.errorfCurve "invalid elliptic curve %s" .P224)) ∧
    FillBytes 28 3 ≠ FillBytes 32 1 ∧ FillBytes 28 4 ≠ FillBytes 32 2 ∧
    FillBytes 28 5 ≠ FillBytes 32 7 := by
  decide

end Jwk

namespace Jwk

theorem publicFromRaw_of_registered (k : ecdsaPublicKey) (rawKey : NativePublicKey)
    (alg : EllipticCurveAlgorithm) (hc : (rawKey.Curve, alg) ∈ curveRegistry)
    (hX : 0 ≤ rawKey.X ∧ rawKey.X.toNat < 256 ^ widthOf rawKey.Curve)
    (hY : 0 ≤ rawKey.Y ∧ rawKey.Y.toNat < 256 ^ widthOf rawKey.Curve) :
    k.FromRaw rawKey =
      some ({ crv := some alg,
              x := some (FillBytes (widthOf rawKey.Curve) rawKey.X.toNat),
              y := some (FillBytes (widthOf rawKey.Curve) rawKey.Y.toNat) }, none) := by
  obtain ⟨c, X, Y⟩ := rawKey
  simp only [ecdsaPublicKey.FromRaw, AllocECPointBuffer_of_fits _ _ hX,
    AllocECPointBuffer_of_fits _ _ hY]
  rw [mem_curveRegistry] at hc
  rcases hc with ⟨h1, h2⟩ | ⟨h1, h2⟩ | ⟨h1, h2⟩ | ⟨h1, h2⟩ <;>
    simp only at h1 <;> subst h1 <;> subst h2 <;> rfl

theorem privateFromRaw_of_registered (k : ecdsaPrivateKey) (rawKey : NativePrivateKey)
    (alg : EllipticCurveAlgorithm) (hc : (rawKey.PublicKey.Curve, alg) ∈ curveRegistry)
    (hX : 0 ≤ rawKey.PublicKey.X ∧
      rawKey.PublicKey.X.toNat < 256 ^ widthOf rawKey.PublicKey.Curve)
    (hY : 0 ≤ rawKey.PublicKey.Y ∧
      rawKey.PublicKey.Y.toNat < 256 ^ widthOf rawKey.PublicKey.Curve)
    (hD : 0 ≤ rawKey.D ∧ rawKey.D.toNat < 256 ^ widthOf rawKey.PublicKey.Curve) :
    k.FromRaw rawKey =
      some ({ crv := some alg,
              x := some (FillBytes (widthOf rawKey.PublicKey.Curve) rawKey.PublicKey.X.toNat),
              y := some (FillBytes (widthOf rawKey.PublicKey.Curve) rawKey.PublicKey.Y.toNat),
              d := some (FillBytes (widthOf rawKey.PublicKey.Curve) rawKey.D.toNat) },
        none) := by
  obtain ⟨⟨c, X, Y⟩, D⟩ := rawKey
  simp only [ecdsaPrivateKey.FromRaw, AllocECPointBuffer_of_fits _ _ hX,
    AllocECPointBuffer_of_fits _ _ hY, AllocECPointBuffer_of_fits _ _ hD]
  rw [mem_curveRegistry] at hc
  rcases hc with ⟨h1, h2⟩ | ⟨h1, h2⟩ | ⟨h1, h2⟩ | ⟨h1, h2⟩ <;>
    simp only at h1 <;> subst h1 <;> subst h2 <;> rfl

theorem buildECDSAPublicKey_of_registered (crv : NativeCurve)
    (alg : EllipticCurveAlgorithm) (hc : (crv, alg) ∈ curveRegistry)
    (xbuf ybuf : List Byte) :
    buildECDSAPublicKey alg xbuf ybuf =
      .ok { Curve := crv, X := SetBytes xbuf, Y := SetBytes ybuf } := by
  rw [mem_curveRegistry] at hc
  rcases hc with ⟨h1, h2⟩ | ⟨h1, h2⟩ | ⟨h1, h2⟩ | ⟨h1, h2⟩ <;>
    subst h1 <;> subst h2 <;> rfl

/-- C3: for every registered curve and every native key on it whose `X`, `Y`
(and `D`) are non-negative and fit in the curve's width, `FromRaw` succeeds
from any prior state of the object, and `Raw` on the resulting object succeeds
and assigns to the destination a key with the same curve, `X` and `Y` (and the
same `D` for the private variant), whatever the destination held before. -/
theorem fromRaw_then_raw_roundtrip (k : ecdsaPublicKey) (kp : ecdsaPrivateKey)
    (rawKey : NativePrivateKey) (alg : EllipticCurveAlgorithm)
    (before : Option NativePublicKey) (beforePriv : Option NativePrivateKey)
    (hc : (rawKey.PublicKey.Curve, alg) ∈ curveRegistry)
    (hX : 0 ≤ rawKey.PublicKey.X ∧
      rawKey.PublicKey.X.toNat < 256 ^ widthOf rawKey.PublicKey.Curve)
    (hY : 0 ≤ rawKey.PublicKey.Y ∧
      rawKey.PublicKey.Y.toNat < 256 ^ widthOf rawKey.PublicKey.Curve) :
    (∃ k1, k.FromRaw rawKey.PublicKey = some (k1, none) ∧
      k1.Raw (.publicKey before) = (.publicKey (some rawKey.PublicKey), none)) ∧
    ((0 ≤ rawKey.D ∧ rawKey.D.toNat < 256 ^ widthOf rawKey.PublicKey.Curve) →
      ∃ kp1, kp.FromRaw rawKey = some (kp1, none) ∧
        kp1.Raw (.privateKey beforePriv) = (.privateKey (some rawKey), none)) := by
  refine ⟨⟨_, publicFromRaw_of_registered k _ alg hc hX hY, ?_⟩, fun hD =>
    ⟨_, privateFromRaw_of_registered kp _ alg hc hX hY hD, ?_⟩⟩
  · simp only [ecdsaPublicKey.Raw, ecdsaPublicKey.Crv, Option.getD_some,
      buildECDSAPublicKey_of_registered _ alg hc, AssignIfCompatible,
      SetBytes_FillBytes_of_fits _ _ hX, SetBytes_FillBytes_of_fits _ _ hY]
  · simp only [ecdsaPrivateKey.Raw, ecdsaPrivateKey.Crv, Option.getD_some,
      buildECDSAPublicKey_of_registered _ alg hc, AssignIfCompatible,
      SetBytes_FillBytes_of_fits _ _ hX, SetBytes_FillBytes_of_fits _ _ hY,
      SetBytes_FillBytes_of_fits _ _ hD]

theorem fromRaw_then_raw_roundtrip_witness :
    (∃ k1, ecdsaPublicKey.FromRaw NewECDSAPublicKey { Curve := .P521, X := 5, Y := 6 } =
        some (k1, none) ∧
      k1.Raw (.publicKey none) = (.publicKey (some { Curve := .P521, X := 5, Y := 6 }), none)) ∧
    ∃ kp1, ecdsaPrivateKey.FromRaw { crv := none, x := none, y := none, d := none }
        { PublicKey := { Curve := .P521, X := 5, Y := 6 }, D := 7 } = some (kp1, none) ∧
      kp1.Raw (.privateKey none) =
        (.privateKey (some { PublicKey := { Curve := .P521, X := 5, Y := 6 }, D := 7 }), none) :=
  have h := fromRaw_then_raw_roundtrip NewECDSAPublicKey
    { crv := none, x := none, y := none, d := none }
    { PublicKey := { Curve := .P521, X := 5, Y := 6 }, D := 7 } P521 none none
    (by decide) (by decide) (by decide)
  ⟨h.1, h.2 (by decide)⟩

end Jwk

namespace Jwk

theorem FillBytes_getElem (w v i : Nat) (h : i < (FillBytes w v).length) :
    ((FillBytes w v)[i]).val = v / 256 ^ (w - 1 - i) % 256 := by
  induction w generalizing v i with
  | zero => simp [FillBytes] at h
  | succ n ih =>
    have hl : (FillBytes (n + 1) v).length = n + 1 := FillBytes_length _ _
    have hi : i < n + 1 := hl ▸ h
    simp only [FillBytes]
    by_cases hin : i < n
    · rw [List.getElem_append_left (by rw [FillBytes_length]; exact hin)]
      rw [ih (v / 256) i (by rw [FillBytes_length]; exact hin)]
      rw [Nat.div_div_eq_div_mul, ← pow_succ']
      congr 3
      omega
    · have : i = n := by omega
      subst this
      rw [List.getElem_append_right (by rw [FillBytes_length])]
      simp [FillBytes_length]

end Jwk

namespace Jwk

theorem isCoordinateBytes_FillBytes (v : Int) (w : Nat)
    (h : 0 ≤ v ∧ v.toNat < 256 ^ w) :
    IsCoordinateBytes w v (FillBytes w v.toNat) :=
  ⟨FillBytes_length _ _, SetBytes_FillBytes_of_fits v w h,
    fun i hi => FillBytes_getElem w v.toNat i hi⟩

/-- C5: the widths of the four registered curves are 32, 48, 66 and 32 bytes,
and for a native key on a registered curve whose coordinates are representable
in that width, `FromRaw` succeeds and stores for `x` and `y` (and `d`, private
variant) byte strings of exactly that length that are the big-endian,
left-zero-padded form of `X` and `Y` (and `D`). -/
theorem fromRaw_stores_fixed_width (k : ecdsaPublicKey) (kp : ecdsaPrivateKey)
    (rawKey : NativePrivateKey) (alg : EllipticCurveAlgorithm)
    (hc : (rawKey.PublicKey.Curve, alg) ∈ curveRegistry)
    (hX : 0 ≤ rawKey.PublicKey.X ∧
      rawKey.PublicKey.X.toNat < 256 ^ widthOf rawKey.PublicKey.Curve)
    (hY : 0 ≤ rawKey.PublicKey.Y ∧
      rawKey.PublicKey.Y.toNat < 256 ^ widthOf rawKey.PublicKey.Curve) :
    (widthOf .P256 = 32 ∧ widthOf .P384 = 48 ∧ widthOf .P521 = 66 ∧ widthOf .S256 = 32) ∧
    (∃ k1 xs ys, k.FromRaw rawKey.PublicKey = some (k1, none) ∧
      k1.x = some xs ∧ k1.y = some ys ∧
      IsCoordinateBytes (widthOf rawKey.PublicKey.Curve) rawKey.PublicKey.X xs ∧
      IsCoordinateBytes (widthOf rawKey.PublicKey.Curve) rawKey.PublicKey.Y ys) ∧
    ((0 ≤ rawKey.D ∧ rawKey.D.toNat < 256 ^ widthOf rawKey.PublicKey.Curve) →
      ∃ kp1 xs ys ds, kp.FromRaw rawKey = some (kp1, none) ∧
        kp1.x = some xs ∧ kp1.y = some ys ∧ kp1.d = some ds ∧
        IsCoordinateBytes (widthOf rawKey.PublicKey.Curve) rawKey.PublicKey.X xs ∧
        IsCoordinateBytes (widthOf rawKey.PublicKey.Curve) rawKey.PublicKey.Y ys ∧
        IsCoordinateBytes (widthOf rawKey.PublicKey.Curve) rawKey.D ds) :=
  ⟨by decide,
    ⟨_, _, _, publicFromRaw_of_registered k _ alg hc hX hY, rfl, rfl,
      isCoordinateBytes_FillBytes _ _ hX, isCoordinateBytes_FillBytes _ _ hY⟩,
    fun hD => ⟨_, _, _, _, privateFromRaw_of_registered kp _ alg hc hX hY hD, rfl, rfl, rfl,
      isCoordinateBytes_FillBytes _ _ hX, isCoordinateBytes_FillBytes _ _ hY,
      isCoordinateBytes_FillBytes _ _ hD⟩⟩

theorem fromRaw_stores_fixed_width_witness :
    (widthOf .P256 = 32 ∧ widthOf .P384 = 48 ∧ widthOf .P521 = 66 ∧ widthOf .S256 = 32) ∧
    (∃ k1 xs ys, ecdsaPublicKey.FromRaw NewECDSAPublicKey
        { Curve := .P384, X := 258, Y := 0 } = some (k1, none) ∧
      k1.x = some xs ∧ k1.y = some ys ∧
      IsCoordinateBytes 48 258 xs ∧ IsCoordinateBytes 48 0 ys) ∧
    ∃ kp1 xs ys ds, ecdsaPrivateKey.FromRaw { crv := none, x := none, y := none, d := none }
        { PublicKey := { Curve := .P384, X := 258, Y := 0 }, D := 9 } = some (kp1, none) ∧
      kp1.x = some xs ∧ kp1.y = some ys ∧ kp1.d = some ds ∧
      IsCoordinateBytes 48 258 xs ∧ IsCoordinateBytes 48 0 ys ∧ IsCoordinateBytes 48 9 ds :=
  have h := fromRaw_stores_fixed_width NewECDSAPublicKey
    { crv := none, x := none, y := none, d := none }
    { PublicKey := { Curve := .P384, X := 258, Y := 0 }, D := 9 } P384
    (by decide) (by decide) (by decide)
  ⟨h.1, h.2.1, h.2.2 (by decide)⟩

theorem AllocECPointBuffer_eq_some_iff (v : Int) (crv : NativeCurve) (buf : List Byte) :
    AllocECPointBuffer v crv = some buf ↔
      (0 ≤ v ∧ v.toNat < 256 ^ widthOf crv) ∧ buf = FillBytes (widthOf crv) v.toNat := by
  unfold AllocECPointBuffer
  split_ifs with h
  · simp only [Option.some.injEq, h, true_and]
    exact eq_comm
  · simp [h]

/-- C6 (as stated, refuted): P-224 is none of the four registered curves, yet
`FromRaw` returns no error for a P-224 key whose `X` (or `D`, private variant)
is `2 ^ 224`: the encoder, which runs before the curve is resolved, does not
accept the value and the call panics instead of returning. -/
theorem fromRaw_unregistered_curve_without_error :
    (NativeCurve.P224 ≠ .P256 ∧ NativeCurve.P224 ≠ .P384 ∧ NativeCurve.P224 ≠ .P521 ∧
      NativeCurve.P224 ≠ .S256) ∧
    ecdsaPublicKey.FromRaw NewECDSAPublicKey { Curve := .P224, X := 2 ^ 224, Y := 1 } = none ∧
    (¬ ∃ k1 err, ecdsaPublicKey.FromRaw NewECDSAPublicKey
      { Curve := .P224, X := 2 ^ 224, Y := 1 } = some (k1, some err)) ∧
    ecdsaPrivateKey.FromRaw { crv := none, x := none, y := none, d := none }
      { PublicKey := { Curve := .P224, X := 1, Y := 2 }, D := 2 ^ 224 } = none ∧
    (¬ ∃ kp1 err, ecdsaPrivateKey.FromRaw { crv := none, x := none, y := none, d := none }
      { PublicKey := { Curve := .P224, X := 1, Y := 2 }, D := 2 ^ 224 } =
        some (kp1, some err)) := by
  have hbig : AllocECPointBuffer (2 ^ 224) .P224 = none := by
    unfold AllocECPointBuffer
    rw [if_neg]
    rintro ⟨_, h⟩
    have hw : widthOf .P224 = 28 := by decide
    have hv : ((2 : Int) ^ 224).toNat = 2 ^ 224 := by
      have hc : ((2 : Int) ^ 224) = ((2 ^ 224 : Nat) : Int) := by push_cast
      rw [hc, Int.toNat_natCast]
    rw [hw, hv] at h
    norm_num at h
  have hx : AllocECPointBuffer 1 .P224 = some (FillBytes 28 1) := by decide
  have hy : AllocECPointBuffer 2 .P224 = some (FillBytes 28 2) := by decide
  have h1 : ecdsaPublicKey.FromRaw NewECDSAPublicKey
      { Curve := .P224, X := 2 ^ 224, Y := 1 } = none := by
    simp only [ecdsaPublicKey.FromRaw, hbig]
  have h2 : ecdsaPrivateKey.FromRaw { crv := none, x := none, y := none, d := none }
      { PublicKey := { Curve := .P224, X := 1, Y := 2 }, D := 2 ^ 224 } = none := by
    simp only [ecdsaPrivateKey.FromRaw, hx, hy, hbig]
  refine ⟨by decide, h1, ?_, h2, ?_⟩
  · rintro ⟨k1, err, h⟩
    rw [h1] at h
    cases h
  · rintro ⟨kp1, err, h⟩
    rw [h2] at h
    cases h

/-- C6 (amended): for a native key for whose `X` and `Y` (and `D`, private
variant) the point encoder returns a buffer, `FromRaw` (public and private
variants) returns; it returns an error exactly when the curve is none of
P-256, P-384, P-521 and secp256k1; when it succeeds the stored identifier is
the registry's identifier of the native curve; and no identifier of the
registry belongs to two native curves. -/
theorem fromRaw_error_iff_unregistered (k : ecdsaPublicKey) (kp : ecdsaPrivateKey)
    (rawKey : NativePrivateKey) (xbuf ybuf : List Byte)
    (hX : AllocECPointBuffer rawKey.PublicKey.X rawKey.PublicKey.Curve = some xbuf)
    (hY : AllocECPointBuffer rawKey.PublicKey.Y rawKey.PublicKey.Curve = some ybuf) :
    (∃ k1 err, k.FromRaw rawKey.PublicKey = some (k1, err) ∧
      (err ≠ none ↔ (rawKey.PublicKey.Curve ≠ .P256 ∧ rawKey.PublicKey.Curve ≠ .P384 ∧
        rawKey.PublicKey.Curve ≠ .P521 ∧ rawKey.PublicKey.Curve ≠ .S256)) ∧
      (err = none → ∃ alg, k1.crv = some alg ∧
        (rawKey.PublicKey.Curve, alg) ∈ curveRegistry)) ∧
    (∀ dbuf, AllocECPointBuffer rawKey.D rawKey.PublicKey.Curve = some dbuf →
      ∃ kp1 err, kp.FromRaw rawKey = some (kp1, err) ∧
        (err ≠ none ↔ (rawKey.PublicKey.Curve ≠ .P256 ∧ rawKey.PublicKey.Curve ≠ .P384 ∧
          rawKey.PublicKey.Curve ≠ .P521 ∧ rawKey.PublicKey.Curve ≠ .S256)) ∧
        (err = none → ∃ alg, kp1.crv = some alg ∧
          (rawKey.PublicKey.Curve, alg) ∈ curveRegistry)) ∧
    (curveRegistry = [(.P256, ⟨"P-256"⟩), (.P384, ⟨"P-384"⟩), (.P521, ⟨"P-521"⟩),
      (.S256, ⟨"secp256k1"⟩)]) ∧
    (∀ c1 c2 alg, (c1, alg) ∈ curveRegistry → (c2, alg) ∈ curveRegistry → c1 = c2) := by
  obtain ⟨⟨c, X, Y⟩, D⟩ := rawKey
  refine ⟨?_, fun dbuf hD => ?_, rfl, ?_⟩
  · simp only [ecdsaPublicKey.FromRaw, hX, hY]
    cases c <;> exact ⟨_, _, rfl, by simp, by simp [curveRegistry]⟩
  · simp only [ecdsaPrivateKey.FromRaw, hX, hY, hD]
    cases c <;> exact ⟨_, _, rfl, by simp, by simp [curveRegistry]⟩
  · intro c1 c2 alg h1 h2
    rw [mem_curveRegistry] at h1 h2
    rcases h1 with ⟨a, b⟩ | ⟨a, b⟩ | ⟨a, b⟩ | ⟨a, b⟩ <;>
      rcases h2 with ⟨a2, b2⟩ | ⟨a2, b2⟩ | ⟨a2, b2⟩ | ⟨a2, b2⟩ <;>
      subst a <;> subst a2 <;> first | rfl | (subst b; exact absurd b2 (by decide))

theorem fromRaw_error_iff_unregistered_witness :
    (∃ k1 err, ecdsaPublicKey.FromRaw NewECDSAPublicKey { Curve := .P224, X := 1, Y := 2 } =
      some (k1, err) ∧ err ≠ none) ∧
    ∃ kp1 err, ecdsaPrivateKey.FromRaw { crv := none, x := none, y := none, d := none }
      { PublicKey := { Curve := .P224, X := 1, Y := 2 }, D := 3 } = some (kp1, err) ∧
      err ≠ none := by
  have h := fromRaw_error_iff_unregistered NewECDSAPublicKey
    { crv := none, x := none, y := none, d := none }
    { PublicKey := { Curve := .P224, X := 1, Y := 2 }, D := 3 }
    (FillBytes 28 1) (FillBytes 28 2) (by decide) (by decide)
  obtain ⟨k1, err, h1, h2, _⟩ := h.1
  obtain ⟨kp1, errp, h3, h4, _⟩ := h.2.1 (FillBytes 28 3) (by decide)
  exact ⟨⟨k1, err, h1, h2.mpr (by decide)⟩, ⟨kp1, errp, h3, h4.mpr (by decide)⟩⟩

end Jwk

namespace Jwk

theorem registry_name (crv : NativeCurve) (alg : EllipticCurveAlgorithm)
    (hc : (crv, alg) ∈ curveRegistry) : crv.Name = alg.val := by
  rw [mem_curveRegistry] at hc
  rcases hc with ⟨h1, h2⟩ | ⟨h1, h2⟩ | ⟨h1, h2⟩ | ⟨h1, h2⟩ <;>
    subst h1 <;> subst h2 <;> rfl

theorem ecdsaThumbprint_eq (hash : Hash) (crv x y : String) :
    ecdsaThumbprint hash crv x y =
      hash ("\x7b\"crv\":\"" ++ crv ++ "\",\"kty\":\"EC\",\"x\":\"" ++ x ++ "\",\"y\":\"" ++ y ++
        "\"\x7d") := by
  simp [ecdsaThumbprint]

theorem publicThumbprint_of_registered (k : ecdsaPublicKey) (hash : Hash)
    (crv : NativeCurve) (alg : EllipticCurveAlgorithm)
    (hc : (crv, alg) ∈ curveRegistry) (hk : k.crv = some alg)
    (hx : (SetBytes (k.x.getD [])).toNat < 256 ^ widthOf crv)
    (hy : (SetBytes (k.y.getD [])).toNat < 256 ^ widthOf crv) :
    k.Thumbprint hash =
      some (.ok (ecdsaThumbprint hash crv.Name
        (EncodeToString (FillBytes (widthOf crv) (SetBytes (k.x.getD [])).toNat))
        (EncodeToString (FillBytes (widthOf crv) (SetBytes (k.y.getD [])).toNat)))) := by
  simp only [ecdsaPublicKey.Thumbprint, ecdsaPublicKey.Raw, ecdsaPublicKey.Crv, hk,
    buildECDSAPublicKey_of_registered crv alg hc, AssignIfCompatible,
    AllocECPointBuffer_of_fits _ _ ⟨SetBytes_nonneg _, hx⟩,
    AllocECPointBuffer_of_fits _ _ ⟨SetBytes_nonneg _, hy⟩]

theorem privateThumbprint_of_registered (k : ecdsaPrivateKey) (hash : Hash)
    (crv : NativeCurve) (alg : EllipticCurveAlgorithm)
    (hc : (crv, alg) ∈ curveRegistry) (hk : k.crv = some alg)
    (hx : (SetBytes (k.x.getD [])).toNat < 256 ^ widthOf crv)
    (hy : (SetBytes (k.y.getD [])).toNat < 256 ^ widthOf crv) :
    k.Thumbprint hash =
      some (.ok (ecdsaThumbprint hash crv.Name
        (EncodeToString (FillBytes (widthOf crv) (SetBytes (k.x.getD [])).toNat))
        (EncodeToString (FillBytes (widthOf crv) (SetBytes (k.y.getD [])).toNat)))) := by
  simp only [ecdsaPrivateKey.Thumbprint, ecdsaPrivateKey.Raw, ecdsaPrivateKey.Crv, hk,
    buildECDSAPublicKey_of_registered crv alg hc, AssignIfCompatible,
    AllocECPointBuffer_of_fits _ _ ⟨SetBytes_nonneg _, hx⟩,
    AllocECPointBuffer_of_fits _ _ ⟨SetBytes_nonneg _, hy⟩]

end Jwk

namespace Jwk

/-- C4: for a native key on a registered curve whose coordinates are
representable in the curve's width, `FromRaw` followed by `Thumbprint` succeeds
(public and private variants) and returns the hash of exactly
`{"crv":"<curve-name>","kty":"EC","x":"<b64url(X)>","y":"<b64url(Y)>"}`, where
the curve name is the registry's identifier and `X`, `Y` are encoded as
unpadded base64url of their fixed-width big-endian form. -/
theorem thumbprint_of_imported_key (k : ecdsaPublicKey) (kp : ecdsaPrivateKey)
    (rawKey : NativePrivateKey) (alg : EllipticCurveAlgorithm) (hash : Hash)
    (hc : (rawKey.PublicKey.Curve, alg) ∈ curveRegistry)
    (hX : 0 ≤ rawKey.PublicKey.X ∧
      rawKey.PublicKey.X.toNat < 256 ^ widthOf rawKey.PublicKey.Curve)
    (hY : 0 ≤ rawKey.PublicKey.Y ∧
      rawKey.PublicKey.Y.toNat < 256 ^ widthOf rawKey.PublicKey.Curve) :
    ∃ xs ys,
      IsCoordinateBytes (widthOf rawKey.PublicKey.Curve) rawKey.PublicKey.X xs ∧
      IsCoordinateBytes (widthOf rawKey.PublicKey.Curve) rawKey.PublicKey.Y ys ∧
      (∃ k1, k.FromRaw rawKey.PublicKey = some (k1, none) ∧
        k1.Thumbprint hash = some (.ok (hash
          ("\x7b\"crv\":\"" ++ alg.val ++ "\",\"kty\":\"EC\",\"x\":\"" ++ EncodeToString xs ++
            "\",\"y\":\"" ++ EncodeToString ys ++ "\"\x7d")))) ∧
      ((0 ≤ rawKey.D ∧ rawKey.D.toNat < 256 ^ widthOf rawKey.PublicKey.Curve) →
        ∃ kp1, kp.FromRaw rawKey = some (kp1, none) ∧
          kp1.Thumbprint hash = some (.ok (hash
            ("\x7b\"crv\":\"" ++ alg.val ++ "\",\"kty\":\"EC\",\"x\":\"" ++ EncodeToString xs ++
              "\",\"y\":\"" ++ EncodeToString ys ++ "\"\x7d")))) := by
  have fx := fits_SetBytes_FillBytes _ _ hX
  have fy := fits_SetBytes_FillBytes _ _ hY
  refine ⟨_, _, isCoordinateBytes_FillBytes _ _ hX, isCoordinateBytes_FillBytes _ _ hY,
    ⟨_, publicFromRaw_of_registered k _ alg hc hX hY, ?_⟩, fun hD =>
    ⟨_, privateFromRaw_of_registered kp _ alg hc hX hY hD, ?_⟩⟩
  · rw [publicThumbprint_of_registered
        { crv := some alg,
          x := some (FillBytes (widthOf rawKey.PublicKey.Curve) rawKey.PublicKey.X.toNat),
          y := some (FillBytes (widthOf rawKey.PublicKey.Curve) rawKey.PublicKey.Y.toNat) }
        hash _ alg hc rfl fx.2 fy.2, ecdsaThumbprint_eq, registry_name _ _ hc]
    simp only [Option.getD_some, SetBytes_FillBytes_of_fits _ _ hX,
      SetBytes_FillBytes_of_fits _ _ hY]
  · rw [privateThumbprint_of_registered
        { crv := some alg,
          x := some (FillBytes (widthOf rawKey.PublicKey.Curve) rawKey.PublicKey.X.toNat),
          y := some (FillBytes (widthOf rawKey.PublicKey.Curve) rawKey.PublicKey.Y.toNat),
          d := some (FillBytes (widthOf rawKey.PublicKey.Curve) rawKey.D.toNat) }
        hash _ alg hc rfl fx.2 fy.2, ecdsaThumbprint_eq, registry_name _ _ hc]
    simp only [Option.getD_some, SetBytes_FillBytes_of_fits _ _ hX,
      SetBytes_FillBytes_of_fits _ _ hY]

theorem thumbprint_of_imported_key_witness :
    ∃ k1 digest,
      ecdsaPublicKey.FromRaw NewECDSAPublicKey { Curve := .S256, X := 1, Y := 2 } =
        some (k1, none) ∧
      k1.Thumbprint (fun text => text.toList.map (fun c => Fin.ofNat c.toNat)) =
        some (.ok digest) := by
  obtain ⟨xs, ys, _, _, ⟨k1, h1, h2⟩, _⟩ :=
    thumbprint_of_imported_key NewECDSAPublicKey
      { crv := none, x := none, y := none, d := none }
      { PublicKey := { Curve := .S256, X := 1, Y := 2 }, D := 3 } Secp256k1
      (fun text => text.toList.map (fun c => Fin.ofNat c.toNat))
      (by decide) (by decide) (by decide)
  exact ⟨k1, _, h1, h2⟩

end Jwk

namespace Jwk

theorem privatePublicKey_eq (kp : ecdsaPrivateKey) :
    kp.PublicKey = .ok { crv := kp.crv, x := kp.x, y := kp.y } := by
  obtain ⟨crv, x, y, d⟩ := kp
  cases crv <;> cases x <;> cases y <;> cases d <;>
    simp [ecdsaPrivateKey.PublicKey, makeECDSAPublicKey, copyPairs, ecdsaPrivateKey.Iterate,
      fieldPair, ecdsaPublicKey.Set, ECDSADKey, NewECDSAPublicKey]

theorem publicPublicKey_eq (k : ecdsaPublicKey) : k.PublicKey = .ok k := by
  obtain ⟨crv, x, y⟩ := k
  cases crv <;> cases x <;> cases y <;>
    simp [ecdsaPublicKey.PublicKey, makeECDSAPublicKey, copyPairs, ecdsaPublicKey.Iterate,
      fieldPair, ecdsaPublicKey.Set, ECDSADKey, NewECDSAPublicKey]

/-- C2: for private key material on a registered curve whose stored
coordinates fit the curve's width and every hash, `PublicKey()` succeeds and
the thumbprint of the derived public key is the thumbprint of the private key,
both being computed; changing the stored private scalar `d` changes neither the
derived key nor the digest. -/
theorem thumbprint_of_projected_public_key (kp : ecdsaPrivateKey) (hash : Hash)
    (crv : NativeCurve) (alg : EllipticCurveAlgorithm)
    (hc : (crv, alg) ∈ curveRegistry) (hk : kp.crv = some alg)
    (hx : (SetBytes (kp.x.getD [])).toNat < 256 ^ widthOf crv)
    (hy : (SetBytes (kp.y.getD [])).toNat < 256 ^ widthOf crv) :
    ∃ kpub digest, kp.PublicKey = .ok kpub ∧
      kpub.Thumbprint hash = some (.ok digest) ∧
      kp.Thumbprint hash = some (.ok digest) ∧
      ∀ d, ({ kp with d := d } : ecdsaPrivateKey).PublicKey = .ok kpub ∧
        ({ kp with d := d } : ecdsaPrivateKey).Thumbprint hash = some (.ok digest) := by
  exact ⟨_, _, privatePublicKey_eq kp,
    publicThumbprint_of_registered { crv := kp.crv, x := kp.x, y := kp.y } hash crv alg
      hc hk hx hy,
    privateThumbprint_of_registered kp hash crv alg hc hk hx hy,
    fun d => ⟨privatePublicKey_eq _,
      privateThumbprint_of_registered { kp with d := d } hash crv alg hc hk hx hy⟩⟩

theorem thumbprint_of_projected_public_key_witness :
    ∃ kpub digest,
      ecdsaPrivateKey.PublicKey
        { crv := some P256, x := some [1, 2], y := some [3], d := some [4] } = .ok kpub ∧
      kpub.Thumbprint (fun text => text.toList.map (fun c => Fin.ofNat c.toNat)) =
        some (.ok digest) ∧
      ecdsaPrivateKey.Thumbprint
        { crv := some P256, x := some [1, 2], y := some [3], d := some [4] }
        (fun text => text.toList.map (fun c => Fin.ofNat c.toNat)) = some (.ok digest) := by
  obtain ⟨kpub, digest, h1, h2, h3, _⟩ :=
    thumbprint_of_projected_public_key
      { crv := some P256, x := some [1, 2], y := some [3], d := some [4] }
      (fun text => text.toList.map (fun c => Fin.ofNat c.toNat)) .P256 P256
      (by decide) rfl (by decide) (by decide)
  exact ⟨kpub, digest, h1, h2, h3⟩

end Jwk

namespace Jwk

theorem copyPairs_append {K V : Type} (Set : K → String → V → Except GoError K)
    (done rest : List (HeaderPair V)) (k0 k : K)
    (h : copyPairs Set k0 done = .ok k) :
    copyPairs Set k0 (done ++ rest) = copyPairs Set k rest := by
  induction done generalizing k0 with
  | nil =>
    simp only [copyPairs, Except.ok.injEq] at h
    subst h
    rfl
  | cons pair done ih =>
    simp only [List.cons_append, copyPairs] at h ⊢
    split at h
    · rename_i hd
      rw [if_pos hd]
      exact ih k0 h
    · rename_i hd
      rw [if_neg hd]
      cases hs : Set k0 pair.Key pair.Value with
      | error e => rw [hs] at h; simp at h
      | ok k1 =>
        rw [hs] at h
        exact ih k1 h

/-- C8: whatever the new key's `Set` does, when the pairs before some pair
were all copied (or skipped as `d`) and `Set` fails on that pair, whose name is
not `d`, `makeECDSAPublicKey` returns no key but the `Set` error wrapped in a
message that carries that pair's name, whatever pairs follow it. -/
theorem makeECDSAPublicKey_fails_at_first_rejected_field {K V : Type} (newKey : K)
    (Set : K → String → V → Except GoError K)
    (done : List (HeaderPair V)) (pair : HeaderPair V) (rest : List (HeaderPair V))
    (k : K) (err : GoError)
    (hdone : makeECDSAPublicKey newKey Set done = .ok k)
    (hname : pair.Key ≠ ECDSADKey)
    (hfail : Set k pair.Key pair.Value = .error err) :
    makeECDSAPublicKey newKey Set (done ++ pair :: rest) =
      .error (.wrapf err "failed to set field %s" pair.Key) := by
  unfold makeECDSAPublicKey at hdone ⊢
  rw [copyPairs_append Set done (pair :: rest) newKey k hdone]
  simp only [copyPairs, if_neg hname, hfail]

theorem makeECDSAPublicKey_fails_at_first_rejected_field_witness :
    makeECDSAPublicKey NewECDSAPublicKey ecdsaPublicKey.Set
        ([{ Key := "kty", Value := .keyType "EC" }, { Key := "d", Value := .bytes [1] }] ++
          { Key := "x", Value := .other "1" } :: [{ Key := "y", Value := .bytes [2] }]) =
      .error (.wrapf (.errorf "invalid value for %s key" "x") "failed to set field %s" "x") :=
  makeECDSAPublicKey_fails_at_first_rejected_field NewECDSAPublicKey ecdsaPublicKey.Set
    [{ Key := "kty", Value := .keyType "EC" }, { Key := "d", Value := .bytes [1] }]
    { Key := "x", Value := .other "1" } [{ Key := "y", Value := .bytes [2] }]
    NewECDSAPublicKey (.errorf "invalid value for %s key" "x")
    rfl (by decide) rfl

/-- C9: for public-only key material on a registered curve, `Raw` into a
private-key destination returns an error and leaves the destination as it was,
and `Raw` into a public-key destination succeeds and assigns the key; for
private key material on a registered curve, `Raw` into a private-key
destination succeeds and assigns the key. -/
theorem raw_destination_compatibility (k : ecdsaPublicKey) (kp : ecdsaPrivateKey)
    (crv crvp : NativeCurve) (alg algp : EllipticCurveAlgorithm)
    (before : Option NativePublicKey) (beforePriv : Option NativePrivateKey)
    (hc : (crv, alg) ∈ curveRegistry) (hk : k.crv = some alg)
    (hcp : (crvp, algp) ∈ curveRegistry) (hkp : kp.crv = some algp) :
    (∃ err, k.Raw (.privateKey beforePriv) = (.privateKey beforePriv, some err)) ∧
    k.Raw (.publicKey before) =
      (.publicKey (some ⟨crv, SetBytes (k.x.getD []), SetBytes (k.y.getD [])⟩), none) ∧
    kp.Raw (.privateKey beforePriv) =
      (.privateKey (some ⟨⟨crvp, SetBytes (kp.x.getD []), SetBytes (kp.y.getD [])⟩,
        SetBytes (kp.d.getD [])⟩), none) := by
  refine ⟨⟨.errorf "argument to AssignIfCompatible() must be compatible with %T"
    "*ecdsa.PublicKey", ?_⟩, ?_, ?_⟩
  · simp only [ecdsaPublicKey.Raw, ecdsaPublicKey.Crv, hk,
      buildECDSAPublicKey_of_registered crv alg hc, AssignIfCompatible]
  · simp only [ecdsaPublicKey.Raw, ecdsaPublicKey.Crv, hk,
      buildECDSAPublicKey_of_registered crv alg hc, AssignIfCompatible]
  · simp only [ecdsaPrivateKey.Raw, ecdsaPrivateKey.Crv, hkp,
      buildECDSAPublicKey_of_registered crvp algp hcp, AssignIfCompatible]

theorem raw_destination_compatibility_witness :
    (∃ err, ecdsaPublicKey.Raw { crv := some P384, x := some [1], y := some [2] }
      (.privateKey none) = (.privateKey none, some err)) ∧
    ecdsaPublicKey.Raw { crv := some P384, x := some [1], y := some [2] } (.publicKey none) =
      (.publicKey (some { Curve := .P384, X := 1, Y := 2 }), none) ∧
    ecdsaPrivateKey.Raw { crv := some P521, x := some [3], y := some [4], d := some [5] }
      (.privateKey none) =
      (.privateKey (some { PublicKey := { Curve := .P521, X := 3, Y := 4 }, D := 5 }), none) :=
  raw_destination_compatibility { crv := some P384, x := some [1], y := some [2] }
    { crv := some P521, x := some [3], y := some [4], d := some [5] }
    .P384 .P521 P384 P521 none none (by decide) rfl (by decide) rfl

/-- C10 (as stated, refuted): on P-256, whose width is 32 bytes, one-byte `x`
and `y` are decoded without any error, by `buildECDSAPublicKey` and by `Raw`. -/
theorem buildECDSAPublicKey_accepts_short_coordinates :
    [(1 : Byte)].length ≠ widthOf .P256 ∧ [(2 : Byte)].length ≠ widthOf .P256 ∧
    buildECDSAPublicKey P256 [1] [2] = .ok { Curve := .P256, X := 1, Y := 2 } ∧
    ecdsaPublicKey.Raw { crv := some P256, x := some [1], y := some [2] } (.publicKey none) =
      (.publicKey (some { Curve := .P256, X := 1, Y := 2 }), none) :=
  ⟨by decide, by decide, rfl, rfl⟩

/-- C10 (amended): `buildECDSAPublicKey` never fails on account of the length
of `x` or `y`. For a registered curve identifier and byte sequences of any
length it returns the key on that curve whose `X` and `Y` are their big-endian
values; it fails exactly when the identifier is not in the registry. -/
theorem buildECDSAPublicKey_fails_only_on_unregistered_curve
    (alg : EllipticCurveAlgorithm) (xbuf ybuf : List Byte) :
    (∃ crv, (crv, alg) ∈ curveRegistry ∧
      buildECDSAPublicKey alg xbuf ybuf =
        .ok { Curve := crv, X := SetBytes xbuf, Y := SetBytes ybuf }) ∨
    ((∀ crv, (crv, alg) ∉ curveRegistry) ∧
      buildECDSAPublicKey alg xbuf ybuf =
        .error (.errorf "invalid curve algorithm %s" alg.val)) := by
  by_cases h : ∃ crv, (crv, alg) ∈ curveRegistry
  · obtain ⟨crv, hc⟩ := h
    exact Or.inl ⟨crv, hc, buildECDSAPublicKey_of_registered crv alg hc xbuf ybuf⟩
  · refine Or.inr ⟨fun crv hc => h ⟨crv, hc⟩, ?_⟩
    have h1 : alg ≠ P256 := fun e => h ⟨.P256, by simp [curveRegistry, e]⟩
    have h2 : alg ≠ P384 := fun e => h ⟨.P384, by simp [curveRegistry, e]⟩
    have h3 : alg ≠ P521 := fun e => h ⟨.P521, by simp [curveRegistry, e]⟩
    have h4 : alg ≠ Secp256k1 := fun e => h ⟨.S256, by simp [curveRegistry, e]⟩
    simp only [buildECDSAPublicKey, if_neg h1, if_neg h2, if_neg h3, if_neg h4]

end Jwk

namespace Jwk

theorem copyPairs_holds {K V : Type} (Set : K → String → V → Except GoError K)
    (Get : K → String → Option V)
    (hset : ∀ k name value k1, Set k name value = .ok k1 →
      ∀ other, Get k1 other = if other = name then some value else Get k other)
    (pairs : List (HeaderPair V))
    (hacc : ∀ pair ∈ pairs, pair.Key ≠ ECDSADKey → ∀ k, ∃ k1, Set k pair.Key pair.Value = .ok k1)
    (hnodup : (pairs.map (fun pair => pair.Key)).Nodup) (k0 : K) :
    ∃ k, copyPairs Set k0 pairs = .ok k ∧
      (∀ pair ∈ pairs, pair.Key ≠ ECDSADKey → Get k pair.Key = some pair.Value) ∧
      (∀ name, (∀ pair ∈ pairs, pair.Key ≠ ECDSADKey → pair.Key ≠ name) →
        Get k name = Get k0 name) := by
  induction pairs generalizing k0 with
  | nil => exact ⟨k0, rfl, by simp, fun _ _ => rfl⟩
  | cons pair rest ih =>
    have hnd : pair.Key ∉ rest.map (fun p => p.Key) ∧ (rest.map (fun p => p.Key)).Nodup :=
      List.nodup_cons.mp hnodup
    have haccRest : ∀ p ∈ rest, p.Key ≠ ECDSADKey → ∀ k, ∃ k1, Set k p.Key p.Value = .ok k1 :=
      fun p hp => hacc p (List.mem_cons_of_mem _ hp)
    by_cases hd : pair.Key = ECDSADKey
    · obtain ⟨k, hk, hA, hB⟩ := ih haccRest hnd.2 k0
      refine ⟨k, by simp only [copyPairs, if_pos hd]; exact hk, ?_, ?_⟩
      · intro p hp hpd
        rcases List.mem_cons.mp hp with rfl | hp
        · exact absurd hd hpd
        · exact hA p hp hpd
      · intro name hname
        exact hB name (fun p hp => hname p (List.mem_cons_of_mem _ hp))
    · obtain ⟨k1, hk1⟩ := hacc pair (List.mem_cons_self _ _) hd k0
      obtain ⟨k, hk, hA, hB⟩ := ih haccRest hnd.2 k1
      have hnotin : ∀ p ∈ rest, p.Key ≠ pair.Key := by
        intro p hp he
        exact hnd.1 (List.mem_map.mpr ⟨p, hp, he⟩)
      refine ⟨k, by simp only [copyPairs, if_neg hd, hk1]; exact hk, ?_, ?_⟩
      · intro p hp hpd
        rcases List.mem_cons.mp hp with rfl | hp
        · rw [hB p.Key (fun q hq _ => hnotin q hq), hset k0 _ _ k1 hk1, if_pos rfl]
        · exact hA p hp hpd
      · intro name hname
        have hne : name ≠ pair.Key := fun e => hname pair (List.mem_cons_self _ _) hd e.symm
        rw [hB name (fun p hp => hname p (List.mem_cons_of_mem _ hp)),
          hset k0 _ _ k1 hk1, if_neg hne]

/-- C7: let the new key's `Set` store a value under its name and leave the
other names as they were, with acceptance not depending on what the key already
holds, and let a fresh key hold nothing but what the source exposes too. Then
for every source whose pairs have distinct names and are, `d` apart, accepted
by `Set` on a fresh key, `makeECDSAPublicKey` succeeds, and the new key holds a
value under a name exactly when the source exposes that pair and the name is
not `d`; it holds nothing under `d`. -/
theorem makeECDSAPublicKey_copies_all_but_d {K V : Type} (newKey : K)
    (Set : K → String → V → Except GoError K) (Get : K → String → Option V)
    (pairs : List (HeaderPair V))
    (hset : ∀ k name value k1, Set k name value = .ok k1 →
      ∀ other, Get k1 other = if other = name then some value else Get k other)
    (hindep : ∀ k k1 name value,
      (∃ r, Set k name value = .ok r) → ∃ r, Set k1 name value = .ok r)
    (hnew : ∀ name value, Get newKey name = some value →
      name ≠ ECDSADKey ∧ { Key := name, Value := value } ∈ pairs)
    (hacc : ∀ pair ∈ pairs, pair.Key ≠ ECDSADKey →
      ∃ r, Set newKey pair.Key pair.Value = .ok r)
    (hnodup : (pairs.map (fun pair => pair.Key)).Nodup) :
    ∃ k, makeECDSAPublicKey newKey Set pairs = .ok k ∧
      Get k ECDSADKey = none ∧
      ∀ name value, Get k name = some value ↔
        (name ≠ ECDSADKey ∧ { Key := name, Value := value } ∈ pairs) := by
  obtain ⟨k, hk, hA, hB⟩ := copyPairs_holds Set Get hset pairs
    (fun pair hp hd k => hindep newKey k _ _ (hacc pair hp hd)) hnodup newKey
  have hiff : ∀ name value, Get k name = some value ↔
      (name ≠ ECDSADKey ∧ ({ Key := name, Value := value } : HeaderPair V) ∈ pairs) := by
    intro name value
    constructor
    · intro hg
      by_cases hex : ∃ pair ∈ pairs, pair.Key ≠ ECDSADKey ∧ pair.Key = name
      · obtain ⟨pair, hp, hpd, hpn⟩ := hex
        have := hA pair hp hpd
        rw [hpn, hg] at this
        obtain ⟨key, val⟩ := pair
        simp only at hpn hpd this
        subst hpn
        simp only [Option.some.injEq] at this
        subst this
        exact ⟨hpd, hp⟩
      · have hno : ∀ pair ∈ pairs, pair.Key ≠ ECDSADKey → pair.Key ≠ name :=
          fun pair hp hpd hpn => hex ⟨pair, hp, hpd, hpn⟩
        rw [hB name hno] at hg
        exact hnew name value hg
    · rintro ⟨hn, hp⟩
      exact hA _ hp hn
  refine ⟨k, hk, ?_, hiff⟩
  cases hg : Get k ECDSADKey with
  | none => rfl
  | some v => exact absurd rfl ((hiff ECDSADKey v).mp hg).1

end Jwk

namespace Jwk

theorem ecdsaPublicKey_Get_Set (k : ecdsaPublicKey) (name : String) (value : FieldValue)
    (k1 : ecdsaPublicKey) (h : k.Set name value = .ok k1) (other : String) :
    k1.Get other = if other = name then some value else k.Get other := by
  unfold ecdsaPublicKey.Set at h
  split_ifs at h with h1 h2 h3 h4 h5
  · cases h; subst h1; subst h2
    by_cases ho : other = "kty" <;> simp [ecdsaPublicKey.Get, ho]
  · subst h3
    cases value <;> simp at h
    subst h
    by_cases ho : other = "crv"
    · subst ho; simp [ecdsaPublicKey.Get]
    · simp [ecdsaPublicKey.Get, ho]
  · subst h4
    cases value <;> simp at h
    subst h
    by_cases ho : other = "x"
    · subst ho; simp [ecdsaPublicKey.Get]
    · simp [ecdsaPublicKey.Get, ho]
  · subst h5
    cases value <;> simp at h
    subst h
    by_cases ho : other = "y"
    · subst ho; simp [ecdsaPublicKey.Get]
    · simp [ecdsaPublicKey.Get, ho]

theorem ecdsaPublicKey_Set_accepts (k k1 : ecdsaPublicKey) (name : String)
    (value : FieldValue) (h : ∃ r, k.Set name value = .ok r) :
    ∃ r, k1.Set name value = .ok r := by
  obtain ⟨r, h⟩ := h
  unfold ecdsaPublicKey.Set at h ⊢
  split_ifs at h ⊢ with h1 h2 h3 h4 h5
  · exact ⟨_, rfl⟩
  · cases value <;> simp at h ⊢
  · cases value <;> simp at h ⊢
  · cases value <;> simp at h ⊢

theorem NewECDSAPublicKey_Get (name : String) (value : FieldValue)
    (h : NewECDSAPublicKey.Get name = some value) :
    name = "kty" ∧ value = .keyType "EC" := by
  unfold ecdsaPublicKey.Get NewECDSAPublicKey at h
  split_ifs at h with h1 h2 h3 h4
  · simp at h
    exact ⟨h1, h.symm⟩
  all_goals simp at h

theorem makeECDSAPublicKey_copies_all_but_d_witness :
    ∃ k, makeECDSAPublicKey NewECDSAPublicKey ecdsaPublicKey.Set
        (ecdsaPrivateKey.Iterate
          { crv := some P256, x := some [1], y := some [2], d := some [3] }) = .ok k ∧
      k.Get ECDSADKey = none ∧ k.Get "x" = some (.bytes [1]) := by
  obtain ⟨k, h1, h2, h3⟩ :=
    makeECDSAPublicKey_copies_all_but_d NewECDSAPublicKey ecdsaPublicKey.Set
      ecdsaPublicKey.Get
      (ecdsaPrivateKey.Iterate
        { crv := some P256, x := some [1], y := some [2], d := some [3] })
      ecdsaPublicKey_Get_Set ecdsaPublicKey_Set_accepts
      (fun name value h => by
        obtain ⟨hn, hv⟩ := NewECDSAPublicKey_Get name value h
        subst hn; subst hv
        exact ⟨by decide, by decide⟩)
      (fun pair hp hd => by
        simp only [ecdsaPrivateKey.Iterate, fieldPair, Option.map, List.mem_append,
          List.mem_singleton] at hp
        rcases hp with (((rfl | rfl) | rfl) | rfl) | rfl <;>
          first | exact ⟨_, rfl⟩ | exact absurd rfl hd)
      (by decide)
  exact ⟨k, h1, h2, (h3 "x" (.bytes [1])).mpr ⟨by decide, by decide⟩⟩

end Jwk

namespace Jwk

theorem SetBytes_leading_zeros (n : Nat) (xs : List Byte) :
    SetBytes (List.replicate n 0 ++ xs) = SetBytes xs := by
  induction n with
  | zero => simp
  | succ m ih =>
    have h : ∀ ys : List Byte, SetBytes (0 :: ys) = SetBytes ys := by
      intro ys
      simp [SetBytes]
    rw [List.replicate_succ, List.cons_append, h, ih]

/-- C11: leading zero bytes do not change the integer a stored byte string
denotes, and for every registered curve and every hash, two key materials
(public or private) on that curve whose stored `x` denote the same integer and
whose stored `y` denote the same integer, both representable in the curve's
width, have the same thumbprint: the hash of the payload that carries the
canonical fixed-width big-endian encoding of the two integers, whatever bytes
are stored. -/
theorem thumbprint_ignores_leading_zeros (k1 k2 : ecdsaPublicKey)
    (kp1 kp2 : ecdsaPrivateKey) (hash : Hash)
    (crv : NativeCurve) (alg : EllipticCurveAlgorithm) (X Y : Int)
    (hc : (crv, alg) ∈ curveRegistry)
    (hX : X.toNat < 256 ^ widthOf crv) (hY : Y.toNat < 256 ^ widthOf crv)
    (hk1 : k1.crv = some alg) (hk2 : k2.crv = some alg)
    (hkp1 : kp1.crv = some alg) (hkp2 : kp2.crv = some alg)
    (hx1 : SetBytes (k1.x.getD []) = X) (hx2 : SetBytes (k2.x.getD []) = X)
    (hy1 : SetBytes (k1.y.getD []) = Y) (hy2 : SetBytes (k2.y.getD []) = Y)
    (hpx1 : SetBytes (kp1.x.getD []) = X) (hpx2 : SetBytes (kp2.x.getD []) = X)
    (hpy1 : SetBytes (kp1.y.getD []) = Y) (hpy2 : SetBytes (kp2.y.getD []) = Y) :
    (∀ n xs, SetBytes (List.replicate n 0 ++ xs) = SetBytes xs) ∧
    ∃ xs ys, IsCoordinateBytes (widthOf crv) X xs ∧ IsCoordinateBytes (widthOf crv) Y ys ∧
      k1.Thumbprint hash = some (.ok (hash
        ("\x7b\"crv\":\"" ++ alg.val ++ "\",\"kty\":\"EC\",\"x\":\"" ++ EncodeToString xs ++
          "\",\"y\":\"" ++ EncodeToString ys ++ "\"\x7d"))) ∧
      k2.Thumbprint hash = k1.Thumbprint hash ∧
      kp1.Thumbprint hash = k1.Thumbprint hash ∧
      kp2.Thumbprint hash = k1.Thumbprint hash := by
  have h0X : 0 ≤ X := hx1 ▸ SetBytes_nonneg _
  have h0Y : 0 ≤ Y := hy1 ▸ SetBytes_nonneg _
  have e1 := publicThumbprint_of_registered k1 hash crv alg hc hk1
    (by rw [hx1]; exact hX) (by rw [hy1]; exact hY)
  have e2 := publicThumbprint_of_registered k2 hash crv alg hc hk2
    (by rw [hx2]; exact hX) (by rw [hy2]; exact hY)
  have e3 := privateThumbprint_of_registered kp1 hash crv alg hc hkp1
    (by rw [hpx1]; exact hX) (by rw [hpy1]; exact hY)
  have e4 := privateThumbprint_of_registered kp2 hash crv alg hc hkp2
    (by rw [hpx2]; exact hX) (by rw [hpy2]; exact hY)
  rw [hx1, hy1] at e1
  rw [hx2, hy2] at e2
  rw [hpx1, hpy1] at e3
  rw [hpx2, hpy2] at e4
  refine ⟨SetBytes_leading_zeros, _, _, isCoordinateBytes_FillBytes X _ ⟨h0X, hX⟩,
    isCoordinateBytes_FillBytes Y _ ⟨h0Y, hY⟩, ?_, ?_, ?_, ?_⟩
  · rw [e1, ecdsaThumbprint_eq, registry_name _ _ hc]
  · rw [e1, e2]
  · rw [e1, e3]
  · rw [e1, e4]

theorem thumbprint_ignores_leading_zeros_witness :
    ecdsaPublicKey.Thumbprint { crv := some P256, x := some [0, 0, 1, 2], y := some [3] }
        (fun text => text.toList.map (fun c => Fin.ofNat c.toNat)) =
      ecdsaPublicKey.Thumbprint { crv := some P256, x := some [1, 2], y := some [0, 3] }
        (fun text => text.toList.map (fun c => Fin.ofNat c.toNat)) ∧
    ecdsaPrivateKey.Thumbprint
        { crv := some P256, x := some [0, 1, 2], y := none, d := some [9] }
        (fun text => text.toList.map (fun c => Fin.ofNat c.toNat)) =
      ecdsaPrivateKey.Thumbprint
        { crv := some P256, x := some [1, 2], y := some [0, 0], d := none }
        (fun text => text.toList.map (fun c => Fin.ofNat c.toNat)) := by
  obtain ⟨_, _, _, _, _, _, h2, _, _⟩ :=
    thumbprint_ignores_leading_zeros
      { crv := some P256, x := some [1, 2], y := some [0, 3] }
      { crv := some P256, x := some [0, 0, 1, 2], y := some [3] }
      { crv := some P256, x := some [1, 2], y := some [0, 3], d := none }
      { crv := some P256, x := some [1, 2], y := some [0, 3], d := none }
      (fun text => text.toList.map (fun c => Fin.ofNat c.toNat)) .P256 P256 258 3
      (by decide) (by decide) (by decide) rfl rfl rfl rfl
      (by decide) (by decide) (by decide) (by decide)
      (by decide) (by decide) (by decide) (by decide)
  obtain ⟨_, _, _, _, _, _, _, h3, h4⟩ :=
    thumbprint_ignores_leading_zeros
      { crv := some P256, x := some [1, 2], y := none }
      { crv := some P256, x := some [1, 2], y := none }
      { crv := some P256, x := some [0, 1, 2], y := none, d := some [9] }
      { crv := some P256, x := some [1, 2], y := some [0, 0], d := none }
      (fun text => text.toList.map (fun c => Fin.ofNat c.toNat)) .P256 P256 258 0
      (by decide) (by decide) (by decide) rfl rfl rfl rfl
      (by decide) (by decide) (by decide) (by decide)
      (by decide) (by decide) (by decide) (by decide)
  exact ⟨h2, h3.trans h4.symm⟩

end Jwk
